import Mathlib

/-!
Verification of the control-tree core of the `react-ive-forms` library
(`AbstractControl` / `FormControl` / `FormGroup` / `FormArray` and the
validator composer in `utils.ts`), as a shallow embedding in Lean.

JS values that the control tree manipulates are modelled by `Value`;
JS objects (error maps, keyed aggregate values) are association lists in
insertion order, matching JS object key-iteration order.  JS object keys
are unique, and the embedding relies on that where noted.
-/

namespace ReactiveForms

/-- The four control statuses of `types.ts`. -/
inductive Status where
  | VALID
  | INVALID
  | PENDING
  | DISABLED
deriving DecidableEq, Repr

/-- The `FormHooks` update strategies of `types.ts`.  In JS these are the
strings "change", "blur" and "submit"; all three are non-empty strings and
hence truthy. -/
inductive FormHooks where
  | change
  | blur
  | submit
deriving DecidableEq, Repr

/-- Payload of a single entry of a validation-error map (`ValidationErrors`).
`b` models a boolean payload such as `required: true`; `lengths` models the
`minLength`/`maxLength` payload objects. -/
inductive EVal where
  | b (b : Bool)
  | lengths (requiredLength actualLength : Nat)
deriving DecidableEq, Repr

/-- A `ValidationErrors` object: string-keyed map in insertion order. -/
abbrev ErrMap := List (String × EVal)

/-- A JS value as handled by the control tree: scalars, strings, objects
(assoc lists) and arrays.  Absence of a key in an `obj` models JS
`undefined`. -/
inductive Value where
  | null
  | str (s : String)
  | int (n : Int)
  | bool (b : Bool)
  | obj (fields : List (String × Value))
  | arr (elems : List Value)

/-- First-match lookup in a JS object / assoc list. -/
def lookupVal : List (String × Value) → String → Option Value
  | [], _ => none
  | (k, v) :: rest, k' => if k = k' then some v else lookupVal rest k'

/-- First-match lookup in an error map. -/
def lookupErr : ErrMap → String → Option EVal
  | [], _ => none
  | (k, e) :: rest, k' => if k = k' then some e else lookupErr rest k'

/-- JS truthiness of a `Value` (`null`, `""`, `0` and `false` are falsy;
objects and arrays are always truthy). -/
def vTruthy : Value → Bool
  | .null => false
  | .str s => s.length != 0
  | .int n => n != 0
  | .bool b => b
  | .obj _ => true
  | .arr _ => true

/-- `isEmptyInputValue` of `utils.ts`: `value == null || value.length === 0`.
Only strings and arrays have a `length` property; for other non-null values
`value.length` is `undefined`, and `undefined === 0` is false. -/
def isEmptyInputValue : Value → Bool
  | .null => true
  | .str s => s.length == 0
  | .arr xs => xs.length == 0
  | _ => false

/-- The JS `length` property of a value: `some` for strings and arrays,
`none` (undefined) otherwise. -/
def jsLength : Value → Option Nat
  | .str s => some s.length
  | .arr xs => some xs.length
  | _ => none

/-- A synchronous validator function.  In the source a `ValidatorFn` receives
the control and the built-in validators read only `control.value`, so the
embedding passes the control's current value. -/
abbrev VFn := Value → Option ErrMap

/-- `Validators.required` of `utils.ts`. -/
def requiredV : VFn := fun v =>
  if isEmptyInputValue v then some [("required", .b true)] else none

/-- `Validators.minLength` of `utils.ts`.  `control.value ? control.value.length : 0`
evaluates to the length for truthy values (`undefined` for values without a
`length`, and `undefined < n` is false) and to `0` for falsy ones, though the
falsy case is unreachable past the empty-value guard. -/
def minLengthV (n : Nat) : VFn := fun v =>
  if isEmptyInputValue v then none
  else
    match (if vTruthy v then jsLength v else some 0) with
    | some len => if len < n then some [("minLength", .lengths n len)] else none
    | none => none

/-- `Object.assign({}, res, errors)`: keys of `errors` overwrite same-named
keys of `res` in place; keys new in `errors` are appended in their own
order. -/
def objAssign (res errs : ErrMap) : ErrMap :=
  (res.map fun ke => (ke.1, match lookupErr errs ke.1 with | some e => e | none => ke.2)) ++
    errs.filter fun ke => (lookupErr res ke.1).isNone

/-- `_mergeErrors` of `utils.ts`: fold `Object.assign` over the produced
error maps (skipping `null` results), returning `null` when the merged
object has no keys. -/
def mergeErrors (arrayOfErrors : List (Option ErrMap)) : Option ErrMap :=
  let res := arrayOfErrors.foldl
    (fun acc e => match e with | some errs => objAssign acc errs | none => acc) []
  if res.isEmpty then none else some res

/-- `Validators.compose` of `utils.ts`: a `null` sequence gives `null`;
absent/null entries are dropped; an empty remainder gives `null`; otherwise
the composed function merges the individual results. -/
def composeV (validators : Option (List (Option VFn))) : Option VFn :=
  match validators with
  | none => none
  | some vs =>
    let present := vs.filterMap id
    if present.isEmpty then none
    else some fun v => mergeErrors (present.map fun f => f v)

/-- Result of applying the composed validator to a control value
(identifying the `null` composed function with a validator that never
fires, as `_runValidator` does). -/
def composedApply (vs : List (Option VFn)) (v : Value) : Option ErrMap :=
  match composeV (some vs) with
  | none => none
  | some f => f v

/-- Key lookup through an `Option ErrMap`. -/
def errLookup (o : Option ErrMap) (k : String) : Option EVal :=
  match o with
  | none => none
  | some es => lookupErr es k

/-- Left-biased choice on optional error payloads. -/
def oElse (x y : Option EVal) : Option EVal :=
  match x with
  | some e => some e
  | none => y

/-- The binding for key `k` contributed by the *last* validator result in
the list that carries that key (the left-to-right, later-wins merge rule
of the specification). -/
def lastErr (maps : List (Option ErrMap)) (k : String) : Option EVal :=
  maps.foldl
    (fun acc m =>
      match m with
      | some es => oElse (lookupErr es k) acc
      | none => acc)
    none

/-- The shared per-control state of `AbstractControl` (plus the leaf-only
pending buffers of `FormControl`, which sit unused on composites).  `uo`
models the private `_updateOn` field, whose initializer is `"change"`.
`validator`/`hasAsync` model the `validator`/`asyncValidator` members
(only the presence of the async validator matters to the state machine).
`parentSet` and `collectionCb` record the effects of `setParent` and
`_registerOnCollectionChange`. -/
structure Core where
  value : Value
  pendingValue : Value
  status : Status
  errors : Option ErrMap
  touched : Bool
  submitted : Bool
  pristine : Bool
  uo : FormHooks
  validator : Option VFn
  hasAsync : Bool
  pendingDirty : Bool
  pendingTouched : Bool
  pendingChange : Bool
  parentSet : Bool
  collectionCb : Bool

/-- A control tree: `leaf` is a `FormControl`, `group` a `FormGroup`
(children keyed by name, in insertion order), `arr` a `FormArray`. -/
inductive Ctrl where
  | leaf (core : Core)
  | group (core : Core) (children : List (String × Ctrl))
  | arr (core : Core) (children : List Ctrl)

/-- The shared state of a control. -/
def Ctrl.core : Ctrl → Core
  | .leaf co => co
  | .group co _ => co
  | .arr co _ => co

/-- Replace the shared state, keeping the children. -/
def Ctrl.setCore : Ctrl → Core → Ctrl
  | .leaf _, co => .leaf co
  | .group _ cs, co => .group co cs
  | .arr _ cs, co => .arr co cs

/-- The children of a control, parents' key/index structure erased. -/
def kidsOf : Ctrl → List Ctrl
  | .leaf _ => []
  | .group _ cs => cs.map fun kc => kc.2
  | .arr _ cs => cs

/-- `enabled` getter: `status !== DISABLED`. -/
def enabledC (c : Ctrl) : Bool := c.core.status != .DISABLED

/-- Is the control a composite (`FormGroup` or `FormArray`)? -/
def isComposite : Ctrl → Bool
  | .leaf _ => false
  | .group _ _ => true
  | .arr _ _ => true

/-- `_allControlsDisabled`: `FormControl` returns `this.disabled`;
`FormGroup`/`FormArray` return false as soon as one child is enabled, and
otherwise `length > 0 || this.disabled`. -/
def allControlsDisabled : Ctrl → Bool
  | .leaf co => co.status == .DISABLED
  | .group co cs =>
    if cs.any (fun kc => enabledC kc.2) then false
    else decide (cs.length > 0) || (co.status == .DISABLED)
  | .arr co cs =>
    if cs.any enabledC then false
    else decide (cs.length > 0) || (co.status == .DISABLED)

/-- `_anyControlsHaveStatus` via `_anyControls`: a `FormControl` has no
children; `FormGroup` tests `contains(name) && condition(control)` (so only
enabled children; key lookup finds the child itself, names being unique);
`FormArray` tests `control.enabled && condition(control)`. -/
def anyControlsWithStatus (c : Ctrl) (s : Status) : Bool :=
  match c with
  | .leaf _ => false
  | .group _ cs => cs.any fun kc => enabledC kc.2 && (kc.2.core.status == s)
  | .arr _ cs => cs.any fun ch => enabledC ch && (ch.core.status == s)

/-- `_calculateStatus` of `AbstractControl`. -/
def calculateStatus (c : Ctrl) : Status :=
  if allControlsDisabled c then .DISABLED
  else if c.core.errors.isSome then .INVALID
  else if anyControlsWithStatus c .PENDING then .PENDING
  else if anyControlsWithStatus c .INVALID then .INVALID
  else .VALID

/-- `_updateValue`'s value: a leaf keeps its scalar value; `FormGroup`
aggregates `control.enabled || this.disabled` children's values keyed by
name; `FormArray` does the same positionally. -/
def reducedValue : Ctrl → Value
  | .leaf co => co.value
  | .group co cs =>
    .obj ((cs.filter fun kc => enabledC kc.2 || (co.status == .DISABLED)).map
      fun kc => (kc.1, kc.2.core.value))
  | .arr co cs =>
    .arr ((cs.filter fun ch => enabledC ch || (co.status == .DISABLED)).map
      fun ch => ch.core.value)

/-- The self-part (steps 1–3) of `updateValueAndValidity`: set the initial
status, recompute the value, and — when enabled and the strategy is not
an unsynced `submit` — run the synchronous validator, recompute the status
and force `PENDING` when an async validator is (re)started.  Emission and
parent recursion are handled by the caller (`uvvAt`). -/
def uvvCoreStep (c : Ctrl) : Core :=
  let co1 := { c.core with status := if c.core.status = .DISABLED then .DISABLED else .VALID }
  let c1 := c.setCore co1
  let co2 := { co1 with value := reducedValue c1 }
  if co2.status ≠ .DISABLED ∧ (co2.uo ≠ .submit ∨ co2.submitted = true) then
    let errs := match co2.validator with | some f => f co2.value | none => none
    let co3 := { co2 with errors := errs }
    let st := calculateStatus (c.setCore co3)
    if (st = .VALID ∨ st = .PENDING) ∧ co3.hasAsync = true then
      { co3 with status := .PENDING }
    else
      { co3 with status := st }
  else co2

/-- `updateValueAndValidity` restricted to the control itself
(steps 1–3 of §4.1; notifications and the parent walk are separate). -/
def uvvSelf (c : Ctrl) : Ctrl := c.setCore (uvvCoreStep c)

/-- The composite status derivation rule as the specification words it
(§3 invariants): DISABLED iff every child is disabled (or there are no
children and the control itself is disabled); else INVALID on own errors;
else PENDING if any enabled child is PENDING; else INVALID if any enabled
child is INVALID; else VALID. -/
def specDerivedStatus (c : Ctrl) : Status :=
  if ((!(kidsOf c).isEmpty) && (kidsOf c).all fun ch => !(enabledC ch)) ||
      ((kidsOf c).isEmpty && (c.core.status == .DISABLED)) then .DISABLED
  else if c.core.errors.isSome then .INVALID
  else if (kidsOf c).any (fun ch => enabledC ch && (ch.core.status == .PENDING)) then .PENDING
  else if (kidsOf c).any (fun ch => enabledC ch && (ch.core.status == .INVALID)) then .INVALID
  else .VALID

/-- `UpdateOptions` of `types.ts`: both members optional.  `none` at a call
site models passing no options object at all (`undefined`). -/
structure UOpts where
  onlySelf : Option Bool
  emitEvent : Option Bool

/-- Re-run `_updateValue` on a control (value recomputed from self/children). -/
def updValueC (c : Ctrl) : Ctrl := c.setCore { c.core with value := reducedValue c }

/-- The subtree effect of `disable`: own status `DISABLED`, own errors
cleared, every child disabled the same way (children are called with
`{onlySelf: true}`, an options object, so the cascade below the root never
faults), then `_updateValue`. -/
def disableSubtree : Ctrl → Ctrl
  | .leaf co => updValueC (.leaf { co with status := .DISABLED, errors := none })
  | .group co cs =>
    updValueC (.group { co with status := .DISABLED, errors := none }
      (cs.attach.map fun kc => (kc.1.1, disableSubtree kc.1.2)))
  | .arr co cs =>
    updValueC (.arr { co with status := .DISABLED, errors := none }
      (cs.attach.map fun ch => disableSubtree ch.1))
decreasing_by
  · obtain ⟨⟨a, b⟩, hmem⟩ := kc
    have h := List.sizeOf_lt_of_mem hmem
    simp at h ⊢
    omega
  · obtain ⟨x, hmem⟩ := ch
    have h := List.sizeOf_lt_of_mem hmem
    simp at h ⊢
    omega

/-- The subtree effect of `enable`: own status `VALID`, every child enabled
the same way, then `updateValueAndValidity({onlySelf: true, ...})` on
itself. -/
def enableSubtree : Ctrl → Ctrl
  | .leaf co => uvvSelf (.leaf { co with status := .VALID })
  | .group co cs =>
    uvvSelf (.group { co with status := .VALID }
      (cs.attach.map fun kc => (kc.1.1, enableSubtree kc.1.2)))
  | .arr co cs =>
    uvvSelf (.arr { co with status := .VALID }
      (cs.attach.map fun ch => enableSubtree ch.1))
decreasing_by
  · obtain ⟨⟨a, b⟩, hmem⟩ := kc
    have h := List.sizeOf_lt_of_mem hmem
    simp at h ⊢
    omega
  · obtain ⟨x, hmem⟩ := ch
    have h := List.sizeOf_lt_of_mem hmem
    simp at h ⊢
    omega

/-- `disable(opts)` on a (root) control: the mutations happen first, and
only then is `opts.emitEvent` dereferenced — with no options object that
read faults (`true` in the second component), leaving the already-mutated
state behind. -/
def disableRun (c : Ctrl) (opts : Option UOpts) : Ctrl × Bool :=
  let c3 := disableSubtree c
  match opts with
  | none => (c3, true)
  | some _ => (c3, false)

/-- `enable(opts)` on a (root) control: own status `VALID` and the child
cascade happen first; the options object for the final
`updateValueAndValidity` call reads `opts.emitEvent`, which faults when no
options object was supplied — before the final revalidation runs. -/
def enableRun (c : Ctrl) (opts : Option UOpts) : Ctrl × Bool :=
  let c1 := c.setCore { c.core with status := .VALID }
  let c2 := match c1 with
    | .leaf co => Ctrl.leaf co
    | .group co cs => .group co (cs.map fun kc => (kc.1, enableSubtree kc.2))
    | .arr co cs => .arr co (cs.map enableSubtree)
  match opts with
  | none => (c2, true)
  | some _ => (uvvSelf c2, false)

/-- Fields of a `Value.obj` (empty for any other value). -/
def fieldsOf : Value → List (String × Value)
  | .obj fields => fields
  | _ => []

/-- `_isBoxedValue` of `FormControl`: a non-null object with exactly the
two keys `value` and `disabled`. -/
def isBoxedValue : Value → Bool
  | .obj fields =>
    (fields.length == 2) && (lookupVal fields "value").isSome &&
      (lookupVal fields "disabled").isSome
  | _ => false

/-- `_applyFormState` of `FormControl`: a boxed state installs the boxed
value and then disables or enables (with `{onlySelf: true, emitEvent: false}`);
any other state becomes the value (and pending value) directly. -/
def applyFormState (c : Ctrl) (formState : Value) : Ctrl :=
  if isBoxedValue formState then
    let v := (lookupVal (fieldsOf formState) "value").getD .null
    let dis := (lookupVal (fieldsOf formState) "disabled").getD .null
    let c1 := c.setCore { c.core with value := v, pendingValue := v }
    if vTruthy dis then (disableRun c1 (some ⟨some true, some false⟩)).1
    else (enableRun c1 (some ⟨some true, some false⟩)).1
  else c.setCore { c.core with value := formState, pendingValue := formState }

/-- The field initializers of `AbstractControl` / `FormControl`. -/
def initCore : Core where
  value := .null
  pendingValue := .null
  status := .VALID
  errors := none
  touched := false
  submitted := false
  pristine := true
  uo := .change
  validator := none
  hasAsync := false
  pendingDirty := false
  pendingTouched := false
  pendingChange := true
  parentSet := false
  collectionCb := false

/-- `_setUpdateStrategy`: assign `_updateOn` only when the options carry a
non-null `updateOn`. -/
def setUpdateStrategy (c : Ctrl) (uoOpt : Option FormHooks) : Ctrl :=
  match uoOpt with
  | some h => c.setCore { c.core with uo := h }
  | none => c

/-- `new FormControl(formState, validatorOrOpts, asyncValidator)`:
apply the form state, resolve the update strategy, then
`updateValueAndValidity({onlySelf: true, emitEvent: false})`. -/
def newFormControl (formState : Value) (validator : Option VFn) (hasAsync : Bool)
    (uoOpt : Option FormHooks) : Ctrl :=
  let c0 := Ctrl.leaf { initCore with validator := validator, hasAsync := hasAsync }
  let c1 := applyFormState c0 formState
  uvvSelf (setUpdateStrategy c1 uoOpt)

/-- `setParent` plus `_registerOnCollectionChange`, as `_setUpControls` and
`registerControl` perform on an attached child. -/
def setParentAndCb (c : Ctrl) : Ctrl :=
  c.setCore { c.core with parentSet := true, collectionCb := true }

/-- `new FormGroup(controls, validatorOrOpts, asyncValidator)`: attach the
children (`_setUpControls`), resolve the update strategy, then
`updateValueAndValidity({onlySelf: true, emitEvent: false})`. -/
def newFormGroup (cs : List (String × Ctrl)) (validator : Option VFn) (hasAsync : Bool)
    (uoOpt : Option FormHooks) : Ctrl :=
  let c0 := Ctrl.group { initCore with validator := validator, hasAsync := hasAsync }
    (cs.map fun kc => (kc.1, setParentAndCb kc.2))
  uvvSelf (setUpdateStrategy c0 uoOpt)

/-- `FormControl("", required)`: an enabled leaf whose empty value fails
the `required` validator, hence `INVALID` from construction. -/
def demoBadLeaf : Ctrl := newFormControl (.str "") (some requiredV) false none

/-- `FormGroup({a: FormControl("", required)}, {updateOn: "submit"})`:
a freshly constructed, never-submitted group with `updateOn: "submit"`
holding one `INVALID` child. -/
def c1CounterTree : Ctrl := newFormGroup [("a", demoBadLeaf)] none false (some .submit)

/-- A plain `FormGroup({a: FormControl("", required)})` (default update
strategy). -/
def c1WitnessTree : Ctrl := newFormGroup [("a", demoBadLeaf)] none false none

/-- A path segment through the tree: a `FormGroup` child by name or a
`FormArray` child by index. -/
inductive Seg where
  | key (k : String)
  | idx (i : Nat)
deriving DecidableEq, Repr

/-- A path from a root control down to a descendant; `[]` is the root
itself.  Parent links of the source become "all proper path prefixes". -/
abbrev Path := List Seg

/-- First-match lookup of a child by name (`this.controls[name]`; JS object
keys are unique, so first-match equals the only match). -/
def lookupCtrl : List (String × Ctrl) → String → Option Ctrl
  | [], _ => none
  | kc :: rest, k => if kc.1 = k then some kc.2 else lookupCtrl rest k

/-- The child reached by one path segment. -/
def childAt (c : Ctrl) : Seg → Option Ctrl
  | .key k =>
    match c with
    | .group _ cs => lookupCtrl cs k
    | _ => none
  | .idx i =>
    match c with
    | .arr _ cs => cs.get? i
    | _ => none

/-- The control at a path, if the path is valid. -/
def getAt : Ctrl → Path → Option Ctrl
  | c, [] => some c
  | c, s :: rest =>
    match childAt c s with
    | some ch => getAt ch rest
    | none => none

/-- Replace (first-match) the child registered under a name. -/
def updChildG : List (String × Ctrl) → String → (Ctrl → Ctrl) → List (String × Ctrl)
  | [], _, _ => []
  | kc :: rest, k, f =>
    if kc.1 = k then (kc.1, f kc.2) :: rest else kc :: updChildG rest k f

/-- Replace the child at an index. -/
def updChildA : List Ctrl → Nat → (Ctrl → Ctrl) → List Ctrl
  | [], _, _ => []
  | c :: rest, 0, f => f c :: rest
  | c :: rest, Nat.succ i, f => c :: updChildA rest i f

/-- Apply `f` to the control at a path (identity when the path is invalid,
matching the in-place mutation of the source). -/
def updateAt : Ctrl → Path → (Ctrl → Ctrl) → Ctrl
  | c, [], f => f c
  | c, .key k :: rest, f =>
    match c with
    | .group co cs => .group co (updChildG cs k fun ch => updateAt ch rest f)
    | _ => c
  | c, .idx i :: rest, f =>
    match c with
    | .arr co cs => .arr co (updChildA cs i fun ch => updateAt ch rest f)
    | _ => c

/-- A core-only rewrite of a control: the constructor and the children are
kept, only the shared state changes.  `uvvSelf` and the mark operations are
of this shape. -/
def coreUpd (h : Ctrl → Core) (c : Ctrl) : Ctrl := c.setCore (h c)

/-- The kind of a change notification. -/
inductive EvKind where
  | evValue
  | evStatus
  | evState
deriving DecidableEq, Repr

/-- A change notification, tagged with the emitting control's path:
`valueChanges.next(value)`, `statusChanges.next(status)`,
`stateChanges.next(null)`. -/
inductive Event where
  | valueChanged (p : Path) (v : Value)
  | statusChanged (p : Path) (s : Status)
  | stateChanged (p : Path)

/-- Emitting path and kind of a notification. -/
def Event.pathKind : Event → Path × EvKind
  | .valueChanged p _ => (p, .evValue)
  | .statusChanged p _ => (p, .evStatus)
  | .stateChanged p => (p, .evState)

/-- The notification triple `updateValueAndValidity` sends after steps 1–3:
value-changed, status-changed, state-changed, reading the control's
post-update value and status. -/
def emitTriple (p : Path) (c : Ctrl) : List Event :=
  [.valueChanged p c.core.value, .statusChanged p c.core.status, .stateChanged p]

/-- `options && options.emitEvent !== false`: no options object at all
suppresses emission; otherwise only an explicit `false` does. -/
def shouldEmit : Option UOpts → Bool
  | none => false
  | some o => o.emitEvent != some false

/-- `this.parent && options && !options.onlySelf`, parent existence aside:
no options object at all suppresses the parent walk; otherwise only a
truthy `onlySelf` does. -/
def shouldRecurse : Option UOpts → Bool
  | none => false
  | some o => o.onlySelf != some true

/-- `updateValueAndValidity(options)` called on the control at path `p` of
`root`: run steps 1–3 on the node, emit the notification triple when
permitted, then recurse the same call on the parent (the path's
`dropLast`) when permitted.  Returns the final tree and the emitted
notifications in order. -/
def uvvAt (root : Ctrl) (p : Path) (opts : Option UOpts) : Ctrl × List Event :=
  let root1 := updateAt root p uvvSelf
  let evs := if shouldEmit opts then
      match getAt root1 p with
      | some n => emitTriple p n
      | none => []
    else []
  if hp : p.isEmpty then (root1, evs)
  else if shouldRecurse opts then
    let r2 := uvvAt root1 p.dropLast opts
    (r2.1, evs ++ r2.2)
  else (root1, evs)
termination_by p.length
decreasing_by
  cases p with
  | nil => simp at hp
  | cons a l => simp [List.length_dropLast]

/-- No `FormHooks` string is empty, so `this._updateOn` is always truthy. -/
def hookTruthy : FormHooks → Bool := fun _ => true

/-- The `updateOn` getter:
`this._updateOn ? this._updateOn : this.parent ? this.parent.updateOn : "change"`,
resolved for the control at path `p` of `root`. -/
def updateOnOf (root : Ctrl) (p : Path) : FormHooks :=
  match getAt root p with
  | some c =>
    if hookTruthy c.core.uo then c.core.uo
    else if hp : p.isEmpty then .change
    else updateOnOf root p.dropLast
  | none => .change
termination_by p.length
decreasing_by
  cases p with
  | nil => simp at hp
  | cons a l => simp [List.length_dropLast]

/-- `markAsDirty` on the control itself: `this.pristine = false`. -/
def markAsDirtySelf (c : Ctrl) : Ctrl := c.setCore { c.core with pristine := false }

/-- `markAsDirty(opts)` on the control at path `p` of `root`: set the flag,
then `if (this._parent && opts && !opts.onlySelf) this._parent.markAsDirty(opts)`. -/
def markAsDirtyAt (root : Ctrl) (p : Path) (opts : Option UOpts) : Ctrl :=
  let root1 := updateAt root p markAsDirtySelf
  if hp : p.isEmpty then root1
  else if shouldRecurse opts then markAsDirtyAt root1 p.dropLast opts
  else root1
termination_by p.length
decreasing_by
  cases p with
  | nil => simp at hp
  | cons a l => simp [List.length_dropLast]

/-- Is `q` an initial segment (ancestor path, self included) of `p`? -/
def pathLe : Path → Path → Bool
  | [], _ => true
  | _ :: _, [] => false
  | a :: q, b :: p => a == b && pathLe q p

/-- The ancestor chain `[p, p.dropLast, …, []]` that a non-scoped
recursive call walks. -/
def chainPaths (p : Path) : List Path :=
  if hp : p.isEmpty then [p]
  else p :: chainPaths p.dropLast
termination_by p.length
decreasing_by
  cases p with
  | nil => simp at hp
  | cons a l => simp [List.length_dropLast]

/-- `setErrors(errors, opts)` restricted to a root control:
`this.errors = errors` followed by `_updateControlsErrors`, which
recomputes `this.status = this._calculateStatus()` (the parent recursion
is vacuous at a root). -/
def setErrorsSelf (c : Ctrl) (errs : Option ErrMap) : Ctrl :=
  let c1 := c.setCore { c.core with errors := errs }
  c1.setCore { c1.core with status := calculateStatus c1 }

/-- The eventual outcome of an in-flight asynchronous validation task:
the observable produced from the validator's promise either `next`s a
result (`null` or an error map) or errors. -/
inductive AsyncOutcome where
  | success (res : Option ErrMap)
  | failure (errs : ErrMap)

/-- How `_runAsyncValidator`'s subscription applies an outcome.  The source
subscribes with an observer object containing only an `error` callback
(`obs.subscribe({error: errors => this.setErrors(errors, {emitEvent})})`),
so a successful completion has no `next` handler and is discarded; only a
failing task reaches `setErrors`. -/
def applyAsyncOutcome (c : Ctrl) (o : AsyncOutcome) : Ctrl :=
  match o with
  | .success _ => c
  | .failure errs => setErrorsSelf c (some errs)

/-- `FormControl.reset(formState = null, options = {})` on a root leaf:
`_applyFormState`, `markAsPristine`, `markAsUntouched`,
`setValue(this.value, options)`, `this._pendingChange = false`. -/
def formControlReset (c : Ctrl) (formState : Value) : Ctrl :=
  let c1 := applyFormState c formState
  let c2 := c1.setCore { c1.core with pristine := true, pendingDirty := false }
  let c3 := c2.setCore { c2.core with touched := false, pendingTouched := false }
  let c4 := c3.setCore
    { c3.core with value := c3.core.value, pendingValue := c3.core.value }
  let c5 := uvvSelf c4
  c5.setCore { c5.core with pendingChange := false }

/-- `Must supply a value for form control with name: 'NAME'.` -/
def msgMustSupply (name : String) : String :=
  "Must supply a value for form control with name: '" ++ name ++ "'."

/-- The template-literal message of `FormGroup._throwIfControlMissing`'s
zero-children branch, whitespace included. -/
def msgNoControlsGroup : String :=
  "\n        There are no form controls registered with this group yet.\n      "

/-- `Cannot find form control with name: NAME.` -/
def msgCannotFind (name : String) : String :=
  "Cannot find form control with name: " ++ name ++ "."

/-- `Must supply a value for form control at index: I.` -/
def msgMustSupplyIdx (i : Nat) : String :=
  "Must supply a value for form control at index: " ++ toString i ++ "."

/-- The template-literal message of `FormArray._throwIfControlMissing`'s
zero-children branch, whitespace included. -/
def msgNoControlsArray : String :=
  "\n        There are no form controls registered with this array yet.\n      "

/-- `Cannot find form control at index I` (no trailing period in the
source). -/
def msgCannotFindIdx (i : Nat) : String :=
  "Cannot find form control at index " ++ toString i

/-- Reading a property of `null`/non-object where the code requires one
raises a `TypeError`. -/
def msgTypeError : String := "TypeError"

mutual

/-- `setValue(value, options)` on a (root) control, faults modelled as the
second component (the first component is the tree as mutated up to the
fault, matching the in-place mutation of the source).  A leaf replaces
`value`/`_pendingValue` and revalidates.  A `FormGroup` first runs
`_checkAllValuesPresent` over its children, then walks the supplied keys,
each key checked by `_throwIfControlMissing` before the child's own
strict `setValue` (with `onlySelf: true`), and finally revalidates itself;
a `FormArray` does the same positionally.  Notifications are not tracked
here. -/
def ctrlSetValue : Ctrl → Value → Ctrl × Option String
  | .leaf co, v => (uvvSelf (.leaf { co with value := v, pendingValue := v }), none)
  | .group co cs, v =>
    match v with
    | .null => (.group co cs, some msgTypeError)
    | _ =>
      match cs.find? (fun kc => (lookupVal (fieldsOf v) kc.1).isNone) with
      | some kc => (.group co cs, some (msgMustSupply kc.1))
      | none =>
        match setFieldsG cs cs (fieldsOf v) with
        | (cs', some m) => (.group co cs', some m)
        | (cs', none) => (uvvSelf (.group co cs'), none)
  | .arr co cs, v =>
    match v with
    | .arr elems =>
      match (List.range cs.length).find? (fun i => (elems.get? i).isNone) with
      | some i => (.arr co cs, some (msgMustSupplyIdx i))
      | none =>
        match setElemsA cs cs elems 0 with
        | (cs', some m) => (.arr co cs', some m)
        | (cs', none) => (uvvSelf (.arr co cs'), none)
    | _ => (.arr co cs, some msgTypeError)
termination_by c v => (sizeOf c, 0)
decreasing_by
  · apply Prod.Lex.left
    simp
  · apply Prod.Lex.left
    simp

/-- The `Object.keys(value).forEach` loop of `FormGroup.setValue`.
`orig` is the child list for lookup (JS object keys are unique, so each
key is processed once and looking up in the original list equals looking
up in the evolving one), `cur` the evolving child list. -/
def setFieldsG : List (String × Ctrl) → List (String × Ctrl) → List (String × Value) →
    List (String × Ctrl) × Option String
  | _, cur, [] => (cur, none)
  | orig, cur, (k, fv) :: rest =>
    if cur.isEmpty then (cur, some msgNoControlsGroup)
    else
      match orig.attach.find? (fun kc => kc.1.1 == k) with
      | none => (cur, some (msgCannotFind k))
      | some ⟨⟨_, child⟩, hmem⟩ =>
        match ctrlSetValue child fv with
        | (child', some m) => (updChildG cur k fun _ => child', some m)
        | (child', none) => setFieldsG orig (updChildG cur k fun _ => child') rest
termination_by orig cur fields => (sizeOf orig, fields.length + 1)
decreasing_by
  · apply Prod.Lex.left
    have h1 := List.sizeOf_lt_of_mem hmem
    simp at h1 ⊢
    omega
  · apply Prod.Lex.right
    simp only [List.length_cons]
    omega

/-- The `value.forEach` loop of `FormArray.setValue`. -/
def setElemsA : List Ctrl → List Ctrl → List Value → Nat → List Ctrl × Option String
  | _, cur, [], _ => (cur, none)
  | orig, cur, fv :: rest, i =>
    if cur.isEmpty then (cur, some msgNoControlsArray)
    else
      match horig : orig.get? i with
      | none => (cur, some (msgCannotFindIdx i))
      | some child =>
        match ctrlSetValue child fv with
        | (child', some m) => (updChildA cur i fun _ => child', some m)
        | (child', none) => setElemsA orig (updChildA cur i fun _ => child') rest (i + 1)
termination_by orig cur elems i => (sizeOf orig, elems.length + 1)
decreasing_by
  · apply Prod.Lex.left
    have h1 := List.sizeOf_lt_of_mem (List.get?_mem horig)
    omega
  · apply Prod.Lex.right
    simp only [List.length_cons]
    omega

end

/-- `FormGroup.registerControl(name, control)`: an existing child under the
name is returned unchanged and nothing is attached; otherwise the control
is stored, parented, and given the collection-change callback.  Returns
(returned control, resulting group). -/
def registerControlG (g : Ctrl) (name : String) (c : Ctrl) : Ctrl × Ctrl :=
  match g with
  | .group co cs =>
    match lookupCtrl cs name with
    | some existing => (existing, .group co cs)
    | none =>
      let c' := setParentAndCb c
      (c', .group co (cs ++ [(name, c')]))
  | other => (other, other)

/-- `FormGroup.addControl(name, control)`: `registerControl`, then
`updateValueAndValidity()` — called with no options object, so no
notifications and no ancestor walk — then the group's own (no-op)
`_onCollectionChange`. -/
def addControlG (g : Ctrl) (name : String) (c : Ctrl) : Ctrl :=
  uvvSelf (registerControlG g name c).2

/-- A leaf whose committed value is `2`. -/
def c3Leaf : Ctrl := Ctrl.leaf { initCore with value := .int 2, pendingValue := .int 2 }

/-- A group whose aggregate value is stale (`{a: 1}` while the child holds
`2`) — the state reached by `child.setValue(2, {onlySelf: true})` after
construction with `1`. -/
def c3Stale : Ctrl :=
  Ctrl.group { initCore with value := .obj [("a", .int 1)] } [("a", c3Leaf)]

/-- `FormGroup({a: FormControl(1)})`. -/
def c8Group : Ctrl :=
  newFormGroup [("a", newFormControl (.int 1) none false none)] none false none

/-- `FormGroup({f: FormControl("x")}, {updateOn: "blur"})`: a group with an
explicit `blur` strategy holding a leaf constructed without one. -/
def c4Tree : Ctrl :=
  newFormGroup [("f", newFormControl (.str "x") none false none)] none false
    (some .blur)

/-- `FormControl("ok", null, someAsyncValidator)`: a control whose only
validation is asynchronous. -/
def c2Ctrl : Ctrl := newFormControl (.str "ok") none true none

/-- `FormControl(1)`: a leaf constructed from the unboxed initial value `1`. -/
def c7Ctrl : Ctrl := newFormControl (.int 1) none false none

/-- A leaf `FormControl(null)`. -/
def c6A : Ctrl := Ctrl.leaf initCore

/-- A second leaf `FormControl(null)`. -/
def c6B : Ctrl := Ctrl.leaf initCore

/-- `FormGroup({a, b})` with two leaf children. -/
def c6Group : Ctrl := Ctrl.group initCore [("a", c6A), ("b", c6B)]

/-- A `FormGroup({})` with no children. -/
def c6Empty : Ctrl := Ctrl.group initCore []

/-- The pre-existing child of the C9 scenario. -/
def c9Existing : Ctrl := Ctrl.leaf initCore

/-- The new control the caller attempts to add under the taken name. -/
def c9New : Ctrl :=
  Ctrl.leaf { initCore with value := .int 7, pendingValue := .int 7 }

/-- `FormGroup({a: c9Existing})`. -/
def c9Group : Ctrl := Ctrl.group initCore [("a", c9Existing)]

theorem lookupErr_append (xs ys : ErrMap) (k : String) :
    lookupErr (xs ++ ys) k = oElse (lookupErr xs k) (lookupErr ys k) := by
  induction xs with
  | nil => simp [lookupErr, oElse]
  | cons ke rest ih =>
    by_cases hk : ke.1 = k
    · cases ke; simp_all [lookupErr, oElse]
    · cases ke; simp_all [lookupErr, oElse]

theorem lookupErr_mapAssign (a b : ErrMap) (k : String) :
    lookupErr
      (a.map fun ke => (ke.1, match lookupErr b ke.1 with | some e => e | none => ke.2)) k =
      (lookupErr a k).map fun orig =>
        match lookupErr b k with | some e => e | none => orig := by
  induction a with
  | nil => simp [lookupErr]
  | cons ke rest ih =>
    by_cases hk : ke.1 = k
    · cases ke with
      | mk k0 e0 => subst hk; simp [lookupErr]
    · cases ke with
      | mk k0 e0 => simp_all [lookupErr]

theorem lookupErr_filterKey (l : ErrMap) (p : String → Bool) (k : String) :
    lookupErr (l.filter fun ke => p ke.1) k =
      if p k then lookupErr l k else none := by
  induction l with
  | nil => simp [lookupErr]
  | cons ke rest ih =>
    by_cases hk : ke.1 = k
    · cases ke with
      | mk k0 e0 =>
        subst hk
        by_cases hp : p k0 <;> simp [List.filter_cons, hp, lookupErr, ih]
    · cases ke with
      | mk k0 e0 =>
        by_cases hp : p k0 <;> simp [List.filter_cons, hp, lookupErr, hk, ih]

theorem lookupErr_objAssign (a b : ErrMap) (k : String) :
    lookupErr (objAssign a b) k = oElse (lookupErr b k) (lookupErr a k) := by
  unfold objAssign
  rw [lookupErr_append, lookupErr_mapAssign,
    lookupErr_filterKey b (fun k0 => (lookupErr a k0).isNone) k]
  cases ha : lookupErr a k <;> cases hb : lookupErr b k <;> simp [oElse, ha, hb]

theorem lastErr_fold_start (rest : List (Option ErrMap)) (k : String) (s : Option EVal) :
    rest.foldl
      (fun acc m => match m with
        | some es => oElse (lookupErr es k) acc
        | none => acc) s = oElse (lastErr rest k) s := by
  induction rest generalizing s with
  | nil => simp [lastErr, oElse]
  | cons r rs ihr =>
    simp only [lastErr, List.foldl_cons] at *
    cases r with
    | none => exact ihr s
    | some res =>
      rw [ihr (oElse (lookupErr res k) s), ihr (oElse (lookupErr res k) none)]
      cases rs.foldl (fun acc m => match m with
        | some es => oElse (lookupErr es k) acc
        | none => acc) none <;> cases lookupErr res k <;> simp [oElse]

theorem lastErr_cons (m : Option ErrMap) (rest : List (Option ErrMap)) (k : String) :
    lastErr (m :: rest) k =
      oElse (lastErr rest k)
        (match m with | some es => lookupErr es k | none => none) := by
  simp only [lastErr, List.foldl_cons]
  rw [lastErr_fold_start rest k]
  cases m with
  | none => simp [oElse, lastErr]
  | some es => cases h : lookupErr es k <;> simp [oElse, lastErr, h]

theorem mergeFold_lookup (maps : List (Option ErrMap)) (acc : ErrMap) (k : String) :
    lookupErr
      (maps.foldl (fun a e => match e with | some errs => objAssign a errs | none => a) acc) k =
      oElse (lastErr maps k) (lookupErr acc k) := by
  induction maps generalizing acc with
  | nil => simp [lastErr, oElse]
  | cons m rest ih =>
    cases m with
    | none =>
      simp only [List.foldl_cons]
      rw [ih acc, lastErr_cons]
      cases lastErr rest k <;> simp [oElse]
    | some es =>
      simp only [List.foldl_cons]
      rw [ih (objAssign acc es), lookupErr_objAssign, lastErr_cons]
      cases hr : lastErr rest k <;> cases he : lookupErr es k <;> simp [oElse, hr, he]

theorem mergeErrors_lookup (maps : List (Option ErrMap)) (k : String) :
    errLookup (mergeErrors maps) k = lastErr maps k := by
  have h := mergeFold_lookup maps [] k
  have hnone : lookupErr ([] : ErrMap) k = none := rfl
  rw [hnone] at h
  simp only [mergeErrors, errLookup]
  generalize List.foldl
    (fun acc e => match e with | some errs => objAssign acc errs | none => acc)
    ([] : ErrMap) maps = res at h ⊢
  cases res with
  | nil =>
    simp only [List.isEmpty_nil, if_true]
    cases hl : lastErr maps k
    · rfl
    · rw [hl] at h; simp [oElse, lookupErr] at h
  | cons x xs =>
    simp only [List.isEmpty_cons, Bool.false_eq_true, if_false]
    rw [h]
    cases lastErr maps k <;> simp [oElse, lookupErr]

theorem composedApply_filter (vs : List (Option VFn)) (v : Value) :
    composedApply vs v = composedApply ((vs.filterMap id).map some) v := by
  have hfm : List.filterMap id (List.map some (vs.filterMap id)) = vs.filterMap id := by
    simp [List.filterMap_map]
  simp only [composedApply, composeV]
  rw [hfm]

theorem composedApply_ne_emptyMap (vs : List (Option VFn)) (v : Value) :
    composedApply vs v ≠ some [] := by
  unfold composedApply composeV
  simp only
  by_cases h : (vs.filterMap id).isEmpty
  · simp [h]
  · simp only [h, Bool.false_eq_true, if_neg, not_false_eq_true]
    unfold mergeErrors
    simp only
    split <;> simp_all

theorem composedApply_lookup (vs : List (Option VFn)) (v : Value) (k : String) :
    (vs.filterMap id).isEmpty = false →
    errLookup (composedApply vs v) k =
      lastErr ((vs.filterMap id).map fun f => f v) k := by
  intro h
  unfold composedApply composeV
  simp only [h, Bool.false_eq_true, if_neg, not_false_eq_true]
  exact mergeErrors_lookup _ k

/-- Claim C5: the composed synchronous validator drops null/absent entries, runs
the remaining validators and merges their error maps left-to-right with
later validators' keys overwriting earlier ones' same-named keys, returns
`null` rather than an empty map when nothing fired, and on
`[required, minLength(3)]` applied to the empty string yields exactly
the map with the single key `required` (the `minLength` validator skips
empty values). -/
theorem c5_compose_semantics :
    (∀ (vs : List (Option VFn)) (v : Value),
        composedApply vs v = composedApply ((vs.filterMap id).map some) v) ∧
    (∀ (vs : List (Option VFn)) (v : Value) (k : String),
        (vs.filterMap id).isEmpty = false →
        errLookup (composedApply vs v) k =
          lastErr ((vs.filterMap id).map fun f => f v) k) ∧
    (∀ (vs : List (Option VFn)) (v : Value), composedApply vs v ≠ some []) ∧
    composedApply [some requiredV, some (minLengthV 3)] (.str "") =
      some [("required", .b true)] := by
  refine ⟨composedApply_filter, composedApply_lookup, composedApply_ne_emptyMap, ?_⟩
  rfl

/-- Witness for C5's hypothesis-bearing conjunct: composing
`[required, null, minLength(3)]` and looking up `minLength` on the value
`"ab"` returns the `minLength` payload, as the merge rule dictates. -/
theorem c5_compose_semantics_witness :
    ([some requiredV, none, some (minLengthV 3)].filterMap id).isEmpty = false ∧
    errLookup (composedApply [some requiredV, none, some (minLengthV 3)] (.str "ab"))
        "minLength" =
      lastErr
        (([some requiredV, none, some (minLengthV 3)].filterMap id).map
          fun f => f (.str "ab")) "minLength" :=
  ⟨rfl, c5_compose_semantics.2.1 [some requiredV, none, some (minLengthV 3)]
    (.str "ab") "minLength" rfl⟩

theorem map_snd_isEmpty (cs : List (String × Ctrl)) :
    (cs.map fun kc => kc.2).isEmpty = cs.isEmpty := by
  cases cs <;> rfl

theorem map_snd_all (cs : List (String × Ctrl)) (p : Ctrl → Bool) :
    (cs.map fun kc => kc.2).all p = cs.all fun kc => p kc.2 := by
  induction cs with
  | nil => rfl
  | cons x xs ih => simp [ih]

theorem map_snd_any (cs : List (String × Ctrl)) (p : Ctrl → Bool) :
    (cs.map fun kc => kc.2).any p = cs.any fun kc => p kc.2 := by
  induction cs with
  | nil => rfl
  | cons x xs ih => simp [ih]

theorem spec_group_unfold (co : Core) (cs : List (String × Ctrl)) :
    specDerivedStatus (.group co cs) =
      if ((!cs.isEmpty) && cs.all fun kc => !enabledC kc.2) ||
          (cs.isEmpty && (co.status == .DISABLED)) then .DISABLED
      else if co.errors.isSome then .INVALID
      else if cs.any (fun kc => enabledC kc.2 && (kc.2.core.status == .PENDING)) then
        .PENDING
      else if cs.any (fun kc => enabledC kc.2 && (kc.2.core.status == .INVALID)) then
        .INVALID
      else .VALID := by
  simp only [specDerivedStatus, kidsOf, Ctrl.core, map_snd_isEmpty, map_snd_all,
    map_snd_any]

theorem spec_arr_unfold (co : Core) (cs : List Ctrl) :
    specDerivedStatus (.arr co cs) =
      if ((!cs.isEmpty) && cs.all fun ch => !enabledC ch) ||
          (cs.isEmpty && (co.status == .DISABLED)) then .DISABLED
      else if co.errors.isSome then .INVALID
      else if cs.any (fun ch => enabledC ch && (ch.core.status == .PENDING)) then
        .PENDING
      else if cs.any (fun ch => enabledC ch && (ch.core.status == .INVALID)) then
        .INVALID
      else .VALID := by
  simp only [specDerivedStatus, kidsOf, Ctrl.core]

theorem calcStatus_eq_spec_group (co3 : Core) (cs : List (String × Ctrl))
    (hst : co3.status = .VALID) :
    calculateStatus (.group co3 cs) =
      specDerivedStatus
        (.group { co3 with status := calculateStatus (.group co3 cs) } cs) := by
  rw [spec_group_unfold]
  cases cs with
  | nil =>
    cases herr : co3.errors <;>
      simp [calculateStatus, allControlsDisabled, anyControlsWithStatus,
        Ctrl.core, hst, herr]
  | cons kc rest =>
    by_cases han : ((kc :: rest).any fun x => enabledC x.2) = true
    · have hcode : allControlsDisabled (Ctrl.group co3 (kc :: rest)) = false := by
        simp [allControlsDisabled, han]
      have hall : ((kc :: rest).all fun x => !enabledC x.2) = false := by
        simp only [List.all_eq_not_any_not, Bool.not_not, han, Bool.not_true]
      simp [calculateStatus, anyControlsWithStatus, Ctrl.core, hcode, hall]
    · have hanf : ((kc :: rest).any fun x => enabledC x.2) = false := by
        simpa using han
      have hcode : allControlsDisabled (Ctrl.group co3 (kc :: rest)) = true := by
        simp [allControlsDisabled, hanf, hst]
      have hall : ((kc :: rest).all fun x => !enabledC x.2) = true := by
        simp only [List.all_eq_not_any_not, Bool.not_not, hanf, Bool.not_false]
      simp [calculateStatus, hcode, hall]

theorem calcStatus_eq_spec_arr (co3 : Core) (cs : List Ctrl)
    (hst : co3.status = .VALID) :
    calculateStatus (.arr co3 cs) =
      specDerivedStatus
        (.arr { co3 with status := calculateStatus (.arr co3 cs) } cs) := by
  rw [spec_arr_unfold]
  cases cs with
  | nil =>
    cases herr : co3.errors <;>
      simp [calculateStatus, allControlsDisabled, anyControlsWithStatus,
        Ctrl.core, hst, herr]
  | cons ch rest =>
    by_cases han : ((ch :: rest).any enabledC) = true
    · have hcode : allControlsDisabled (Ctrl.arr co3 (ch :: rest)) = false := by
        simp [allControlsDisabled, han]
      have hall : ((ch :: rest).all fun x => !enabledC x) = false := by
        simp only [List.all_eq_not_any_not, Bool.not_not]
        simp [han]
      simp [calculateStatus, anyControlsWithStatus, Ctrl.core, hcode, hall]
    · have hanf : ((ch :: rest).any enabledC) = false := by
        simpa using han
      have hcode : allControlsDisabled (Ctrl.arr co3 (ch :: rest)) = true := by
        simp [allControlsDisabled, hanf, hst]
      have hall : ((ch :: rest).all fun x => !enabledC x) = true := by
        simp only [List.all_eq_not_any_not, Bool.not_not]
        simp [hanf]
      simp [calculateStatus, hcode, hall]

/-- Claim C1 (amended): after any `updateValueAndValidity` in which a composite
is actually validated — it is enabled, its update strategy is not an
unsynced `submit`, and it carries no async validator (which would force
`PENDING`) — its status equals the specification's derivation rule applied
to its current children and own errors. -/
theorem c1_composite_status_rule (c : Ctrl)
    (hc : isComposite c = true)
    (hen : c.core.status ≠ .DISABLED)
    (hsub : c.core.uo ≠ .submit ∨ c.core.submitted = true)
    (hasync : c.core.hasAsync = false) :
    (uvvSelf c).core.status = specDerivedStatus (uvvSelf c) := by
  cases c with
  | leaf co => simp [isComposite] at hc
  | group co cs =>
    simp only [Ctrl.core] at hen hsub hasync
    simp only [uvvSelf, uvvCoreStep, Ctrl.core, Ctrl.setCore]
    rw [if_neg hen]
    rw [if_pos (by exact ⟨by simp, hsub⟩)]
    rw [if_neg (by simp [hasync])]
    exact calcStatus_eq_spec_group _ cs rfl
  | arr co cs =>
    simp only [Ctrl.core] at hen hsub hasync
    simp only [uvvSelf, uvvCoreStep, Ctrl.core, Ctrl.setCore]
    rw [if_neg hen]
    rw [if_pos (by exact ⟨by simp, hsub⟩)]
    rw [if_neg (by simp [hasync])]
    exact calcStatus_eq_spec_arr _ cs rfl

/-- Witness for C1: the freshly constructed
`FormGroup({a: FormControl("", required)})` satisfies the hypotheses, and
re-running `updateValueAndValidity` leaves its status equal to the spec's
derivation rule (here `INVALID`, from the invalid enabled child). -/
theorem c1_composite_status_rule_witness :
    isComposite c1WitnessTree = true ∧
    c1WitnessTree.core.status ≠ .DISABLED ∧
    c1WitnessTree.core.hasAsync = false ∧
    (uvvSelf c1WitnessTree).core.status = specDerivedStatus (uvvSelf c1WitnessTree) :=
  ⟨rfl, by decide, rfl,
    c1_composite_status_rule c1WitnessTree rfl (by decide) (Or.inl (by decide)) rfl⟩

/-- Claim C1 counterexample: on the reachable tree
`FormGroup({a: FormControl("", required)}, {updateOn: "submit"})` — a
never-submitted group — `updateValueAndValidity` skips validation
(`shouldValidate` is false), leaving status `VALID`, while the derivation
rule applied to the current children yields `INVALID` because the enabled
child `a` is `INVALID`.  The claim's unconditional equality is false. -/
theorem c1_counterexample :
    (uvvSelf c1CounterTree).core.status = .VALID ∧
    specDerivedStatus (uvvSelf c1CounterTree) = .INVALID := by
  constructor <;> rfl

theorem core_setCore (c : Ctrl) (co : Core) : (c.setCore co).core = co := by
  cases c <;> rfl

theorem kidsOf_setCore (c : Ctrl) (co : Core) : kidsOf (c.setCore co) = kidsOf c := by
  cases c <;> rfl

theorem uvvSelf_eq_coreUpd : uvvSelf = coreUpd uvvCoreStep := rfl

theorem markAsDirtySelf_eq_coreUpd :
    markAsDirtySelf = coreUpd fun c => { c.core with pristine := false } := rfl

theorem childAt_coreUpd (h : Ctrl → Core) (c : Ctrl) (s : Seg) :
    childAt (coreUpd h c) s = childAt c s := by
  cases c <;> cases s <;> rfl

theorem getAt_append (r : Ctrl) (q s : Path) :
    getAt r (q ++ s) =
      match getAt r q with
      | some n => getAt n s
      | none => none := by
  induction q generalizing r with
  | nil => simp [getAt]
  | cons a t ih =>
    simp only [List.cons_append, getAt]
    cases hch : childAt r a with
    | none => rfl
    | some ch => exact ih ch

theorem lookupCtrl_updChildG_self (cs : List (String × Ctrl)) (k : String)
    (f : Ctrl → Ctrl) :
    lookupCtrl (updChildG cs k f) k = (lookupCtrl cs k).map f := by
  induction cs with
  | nil => rfl
  | cons kc rest ih =>
    by_cases hk : kc.1 = k
    · simp [updChildG, lookupCtrl, hk]
    · simp [updChildG, lookupCtrl, hk, ih]

theorem get?_updChildA_self (cs : List Ctrl) (i : Nat) (f : Ctrl → Ctrl) :
    (updChildA cs i f).get? i = (cs.get? i).map f := by
  induction cs generalizing i with
  | nil => simp [updChildA]
  | cons c rest ih =>
    cases i with
    | zero => rfl
    | succ j => simpa [updChildA] using ih j

theorem getAt_updateAt_self (p : Path) (r : Ctrl) (f : Ctrl → Ctrl) :
    getAt (updateAt r p f) p = (getAt r p).map f := by
  induction p generalizing r with
  | nil => rfl
  | cons s rest ih =>
    cases s with
    | key k =>
      cases r with
      | group co cs =>
        simp only [updateAt, getAt, childAt]
        rw [lookupCtrl_updChildG_self]
        cases hlk : lookupCtrl cs k <;> simp [hlk, ih]
      | leaf co => simp [updateAt, getAt, childAt]
      | arr co cs => simp [updateAt, getAt, childAt]
    | idx i =>
      cases r with
      | arr co cs =>
        simp only [updateAt, getAt, childAt]
        rw [get?_updChildA_self]
        cases hlk : cs.get? i <;> simp [hlk, ih]
      | leaf co => simp [updateAt, getAt, childAt]
      | group co cs => simp [updateAt, getAt, childAt]

theorem getAt_updateAt_append (q : Path) (s : Path) (r : Ctrl) (f : Ctrl → Ctrl) :
    getAt (updateAt r (q ++ s) f) q = (getAt r q).map fun n => updateAt n s f := by
  induction q generalizing r with
  | nil => rfl
  | cons a t ih =>
    cases a with
    | key k =>
      cases r with
      | group co cs =>
        simp only [List.cons_append, updateAt, getAt, childAt]
        rw [lookupCtrl_updChildG_self]
        cases hlk : lookupCtrl cs k <;> simp [hlk, ih]
      | leaf co => simp [updateAt, getAt, childAt]
      | arr co cs => simp [updateAt, getAt, childAt]
    | idx i =>
      cases r with
      | arr co cs =>
        simp only [List.cons_append, updateAt, getAt, childAt]
        rw [get?_updChildA_self]
        cases hlk : cs.get? i <;> simp [hlk, ih]
      | leaf co => simp [updateAt, getAt, childAt]
      | group co cs => simp [updateAt, getAt, childAt]

theorem getAt_coreUpd_cons (h : Ctrl → Core) (c : Ctrl) (a : Seg) (s : Path) :
    getAt (coreUpd h c) (a :: s) = getAt c (a :: s) := by
  simp only [getAt, childAt_coreUpd]

theorem getAt_updateAt_deeper (h : Ctrl → Core) (q : Path) (r : Ctrl) (s : Path)
    (hs : s ≠ []) :
    getAt (updateAt r q (coreUpd h)) (q ++ s) = getAt r (q ++ s) := by
  induction q generalizing r with
  | nil =>
    cases s with
    | nil => exact absurd rfl hs
    | cons a t => simpa using getAt_coreUpd_cons h r a t
  | cons a t ih =>
    cases a with
    | key k =>
      cases r with
      | group co cs =>
        simp only [List.cons_append, updateAt, getAt, childAt]
        rw [lookupCtrl_updChildG_self]
        cases hlk : lookupCtrl cs k <;> simp [hlk, ih]
      | leaf co => simp [updateAt]
      | arr co cs => simp [updateAt]
    | idx i =>
      cases r with
      | arr co cs =>
        simp only [List.cons_append, updateAt, getAt, childAt]
        rw [get?_updChildA_self]
        cases hlk : cs.get? i <;> simp [hlk, ih]
      | leaf co => simp [updateAt]
      | group co cs => simp [updateAt]

theorem uvvAt_none (root : Ctrl) (p : Path) :
    uvvAt root p none = (updateAt root p uvvSelf, []) := by
  rw [uvvAt]
  simp [shouldEmit, shouldRecurse]

theorem uvvAt_nil_someDefault (root : Ctrl) :
    uvvAt root [] (some ⟨none, none⟩) =
      (uvvSelf root, emitTriple [] (uvvSelf root)) := by
  rw [uvvAt]
  simp [shouldEmit, getAt, updateAt]

theorem dropLast_eq_self_append (p : Path) (hp : p ≠ []) :
    p = p.dropLast ++ [p.getLast hp] :=
  (List.dropLast_append_getLast hp).symm

theorem uvvAt_someDefault_valid_unfold (root : Ctrl) (p : Path) (hp : ¬p.isEmpty = true)
    (n : Ctrl) (hn : getAt root p = some n) :
    uvvAt root p (some ⟨none, none⟩) =
      ((uvvAt (updateAt root p uvvSelf) p.dropLast (some ⟨none, none⟩)).1,
        emitTriple p (uvvSelf n) ++
          (uvvAt (updateAt root p uvvSelf) p.dropLast (some ⟨none, none⟩)).2) := by
  rw [uvvAt]
  have hget : getAt (updateAt root p uvvSelf) p = some (uvvSelf n) := by
    rw [getAt_updateAt_self, hn]
    rfl
  simp only [shouldEmit, shouldRecurse, hget, hp]
  simp

theorem getAt_dropLast_isSome (root : Ctrl) (p : Path) (hp : p ≠ [])
    (hvalid : (getAt root p).isSome = true) :
    (getAt root p.dropLast).isSome = true := by
  have hsplit := dropLast_eq_self_append p hp
  rw [hsplit, getAt_append] at hvalid
  cases hq : getAt root p.dropLast with
  | none => rw [hq] at hvalid; simp at hvalid
  | some n => rfl

theorem getAt_updateAt_dropLast (root : Ctrl) (p : Path) (hp : p ≠ []) (f : Ctrl → Ctrl) :
    getAt (updateAt root p f) p.dropLast =
      (getAt root p.dropLast).map fun m => updateAt m [p.getLast hp] f := by
  have h := getAt_updateAt_append p.dropLast [p.getLast hp] root f
  rw [← dropLast_eq_self_append p hp] at h
  exact h

theorem uvvAt_kinds_aux (n : Nat) : ∀ (root : Ctrl) (p : Path), p.length ≤ n →
    (getAt root p).isSome = true →
    (uvvAt root p (some ⟨none, none⟩)).2.map Event.pathKind =
      (chainPaths p).flatMap fun q =>
        [(q, EvKind.evValue), (q, EvKind.evStatus), (q, EvKind.evState)] := by
  induction n with
  | zero =>
    intro root p hlen _
    have hp : p = [] := List.length_eq_zero.mp (Nat.le_zero.mp hlen)
    subst hp
    rw [uvvAt_nil_someDefault, chainPaths]
    simp [emitTriple, Event.pathKind]
  | succ m ih =>
    intro root p hlen hvalid
    by_cases hp : p = []
    · subst hp
      rw [uvvAt_nil_someDefault, chainPaths]
      simp [emitTriple, Event.pathKind]
    · obtain ⟨nd, hnd⟩ := Option.isSome_iff_exists.mp hvalid
      have hpe : ¬p.isEmpty = true := by simp [hp]
      rw [uvvAt_someDefault_valid_unfold root p hpe nd hnd]
      have hlen2 : p.dropLast.length ≤ m := by
        have := List.length_dropLast p
        cases p with
        | nil => exact absurd rfl hp
        | cons a t => simp at this hlen ⊢; omega
      have hvalid2 : (getAt (updateAt root p uvvSelf) p.dropLast).isSome = true := by
        rw [getAt_updateAt_dropLast root p hp uvvSelf]
        have := getAt_dropLast_isSome root p hp hvalid
        cases hq : getAt root p.dropLast with
        | none => rw [hq] at this; simp at this
        | some mm => rfl
      have hrec := ih (updateAt root p uvvSelf) p.dropLast hlen2 hvalid2
      rw [chainPaths]
      simp only [hpe, dite_false]
      simp [emitTriple, Event.pathKind, hrec]

/-- Claim C3 (amended): when an options object is supplied (even an empty
one — both members unset so both defaults apply), `updateValueAndValidity`
emits value-changed, status-changed and state-changed, in that order, for
the control and then for each ancestor up the chain, the control's triple
carrying its post-update value and status; when NO options argument is
supplied at all, the guards `options && options.emitEvent !== false` and
`options && !options.onlySelf` both fail, so nothing is emitted and the
parent is not revalidated. -/
theorem c3_default_options_behavior (root : Ctrl) (p : Path)
    (hvalid : (getAt root p).isSome = true) :
    ((uvvAt root p (some ⟨none, none⟩)).2.map Event.pathKind =
      (chainPaths p).flatMap fun q =>
        [(q, EvKind.evValue), (q, EvKind.evStatus), (q, EvKind.evState)]) ∧
    ((uvvAt root p (some ⟨none, none⟩)).2.take 3 =
      match getAt (updateAt root p uvvSelf) p with
      | some n => emitTriple p n
      | none => []) ∧
    uvvAt root p none = (updateAt root p uvvSelf, []) := by
  refine ⟨uvvAt_kinds_aux p.length root p le_rfl hvalid, ?_, uvvAt_none root p⟩
  obtain ⟨nd, hnd⟩ := Option.isSome_iff_exists.mp hvalid
  have hget : getAt (updateAt root p uvvSelf) p = some (uvvSelf nd) := by
    rw [getAt_updateAt_self, hnd]
    rfl
  by_cases hp : p = []
  · subst hp
    rw [uvvAt_nil_someDefault]
    simp [emitTriple, hget, getAt, updateAt]
  · have hpe : ¬p.isEmpty = true := by simp [hp]
    rw [uvvAt_someDefault_valid_unfold root p hpe nd hnd]
    simp [emitTriple, hget]

/-- Witness for C3: the two-level tree `FormGroup({a: FormControl("", required)})`
with path `["a"]` satisfies the validity hypothesis, and the conclusion
holds there. -/
theorem c3_default_options_behavior_witness :
    (getAt c1WitnessTree [.key "a"]).isSome = true ∧
    uvvAt c1WitnessTree [.key "a"] none =
      (updateAt c1WitnessTree [.key "a"] uvvSelf, []) :=
  ⟨rfl, (c3_default_options_behavior c1WitnessTree [.key "a"] rfl).2.2⟩

/-- Claim C3 counterexample: `updateValueAndValidity()` called with no
options argument on the child emits NO notifications (the claim says the
three default-mode notifications fire) and does not recurse on the parent
(the group's stale aggregate value survives; the claim says the ancestor
chain settles). -/
theorem c3_counterexample :
    (uvvAt c3Stale [.key "a"] none).2 = [] ∧
    (uvvAt c3Stale [.key "a"] none).1.core.value = .obj [("a", .int 1)] := by
  constructor
  · rw [uvvAt_none]
  · rw [uvvAt_none]
    rfl

theorem pathLe_nil_right (q : Path) (h : pathLe q [] = true) : q = [] := by
  cases q with
  | nil => rfl
  | cons a t => simp [pathLe] at h

theorem pathLe_length (q p : Path) (h : pathLe q p = true) : q.length ≤ p.length := by
  induction q generalizing p with
  | nil => simp
  | cons a t ih =>
    cases p with
    | nil => simp [pathLe] at h
    | cons b s =>
      simp only [pathLe, Bool.and_eq_true] at h
      have := ih s h.2
      simp only [List.length_cons]
      omega

theorem pathLe_eq_of_length (q p : Path) (h : pathLe q p = true)
    (hl : q.length = p.length) : q = p := by
  induction q generalizing p with
  | nil =>
    cases p with
    | nil => rfl
    | cons b s => simp at hl
  | cons a t ih =>
    cases p with
    | nil => simp [pathLe] at h
    | cons b s =>
      simp only [pathLe, Bool.and_eq_true, beq_iff_eq] at h
      simp only [List.length_cons] at hl
      rw [h.1, ih s h.2 (by omega)]

theorem pathLe_dropLast (q p : Path) (h : pathLe q p = true)
    (hl : q.length < p.length) : pathLe q p.dropLast = true := by
  induction q generalizing p with
  | nil => cases p.dropLast <;> rfl
  | cons a t ih =>
    cases p with
    | nil => simp [pathLe] at h
    | cons b s =>
      simp only [pathLe, Bool.and_eq_true] at h
      cases s with
      | nil => simp at hl
      | cons c s2 =>
        have hdl : (b :: c :: s2).dropLast = b :: (c :: s2).dropLast := rfl
        rw [hdl]
        simp only [pathLe, Bool.and_eq_true]
        refine ⟨h.1, ih (c :: s2) h.2 ?_⟩
        simp at hl ⊢
        omega

theorem markAsDirtyAt_deeper_aux (n : Nat) : ∀ (p2 : Path) (root : Ctrl)
    (o : Option UOpts) (s : Path), p2.length ≤ n → s ≠ [] →
    getAt (markAsDirtyAt root p2 o) (p2 ++ s) = getAt root (p2 ++ s) := by
  induction n with
  | zero =>
    intro p2 root o s hlen hs
    have hp : p2 = [] := List.length_eq_zero.mp (Nat.le_zero.mp hlen)
    subst hp
    rw [markAsDirtyAt]
    simp only [List.isEmpty_nil, dite_true, updateAt, List.nil_append]
    cases s with
    | nil => exact absurd rfl hs
    | cons a t =>
      rw [markAsDirtySelf_eq_coreUpd]
      exact getAt_coreUpd_cons _ root a t
  | succ m ih =>
    intro p2 root o s hlen hs
    by_cases hp : p2 = []
    · subst hp
      rw [markAsDirtyAt]
      simp only [List.isEmpty_nil, dite_true, updateAt, List.nil_append]
      cases s with
      | nil => exact absurd rfl hs
      | cons a t =>
        rw [markAsDirtySelf_eq_coreUpd]
        exact getAt_coreUpd_cons _ root a t
    · have hpe : ¬p2.isEmpty = true := by simp [hp]
      have hdeep : getAt (updateAt root p2 markAsDirtySelf) (p2 ++ s) =
          getAt root (p2 ++ s) := by
        rw [markAsDirtySelf_eq_coreUpd]
        exact getAt_updateAt_deeper _ p2 root s hs
      rw [markAsDirtyAt, dif_neg hpe]
      by_cases hrec : shouldRecurse o = true
      · rw [if_pos hrec]
        have hassoc : p2 ++ s = p2.dropLast ++ ([p2.getLast hp] ++ s) := by
          conv_lhs => rw [dropLast_eq_self_append p2 hp]
          rw [List.append_assoc]
        have hlen2 : p2.dropLast.length ≤ m := by
          have := List.length_dropLast p2
          cases p2 with
          | nil => exact absurd rfl hp
          | cons a t => simp at this hlen ⊢; omega
        rw [hassoc, ih p2.dropLast (updateAt root p2 markAsDirtySelf) o
          ([p2.getLast hp] ++ s) hlen2 (by simp), ← hassoc]
        exact hdeep
      · rw [if_neg hrec]
        exact hdeep

theorem c8_aux (n : Nat) : ∀ (root : Ctrl) (p q : Path) (o : UOpts), p.length ≤ n →
    o.onlySelf ≠ some true → (getAt root p).isSome = true → pathLe q p = true →
    ((getAt (markAsDirtyAt root p (some o)) q).map fun m => m.core.pristine) =
      some false := by
  induction n with
  | zero =>
    intro root p q o hlen ho hvalid hq
    have hp : p = [] := List.length_eq_zero.mp (Nat.le_zero.mp hlen)
    subst hp
    have hq0 : q = [] := pathLe_nil_right q hq
    subst hq0
    rw [markAsDirtyAt]
    simp [getAt, updateAt, markAsDirtySelf, core_setCore]
  | succ m ih =>
    intro root p q o hlen ho hvalid hq
    by_cases hp : p = []
    · subst hp
      have hq0 : q = [] := pathLe_nil_right q hq
      subst hq0
      rw [markAsDirtyAt]
      simp [getAt, updateAt, markAsDirtySelf, core_setCore]
    · have hpe : ¬p.isEmpty = true := by simp [hp]
      have hrec : shouldRecurse (some o) = true := by
        simp [shouldRecurse]
        exact ho
      rw [markAsDirtyAt, dif_neg hpe, if_pos hrec]
      by_cases hqp : q = p
      · subst hqp
        have hdeep := markAsDirtyAt_deeper_aux q.dropLast.length q.dropLast
          (updateAt root q markAsDirtySelf) (some o) [q.getLast hp] le_rfl (by simp)
        rw [← dropLast_eq_self_append q hp] at hdeep
        rw [hdeep, getAt_updateAt_self]
        obtain ⟨nd, hnd⟩ := Option.isSome_iff_exists.mp hvalid
        rw [hnd]
        simp [markAsDirtySelf, core_setCore]
      · have hlq : q.length < p.length :=
          lt_of_le_of_ne (pathLe_length q p hq)
            (fun heq => hqp (pathLe_eq_of_length q p hq heq))
        have hq' : pathLe q p.dropLast = true := pathLe_dropLast q p hq hlq
        have hlen2 : p.dropLast.length ≤ m := by
          have := List.length_dropLast p
          cases p with
          | nil => exact absurd rfl hp
          | cons a t => simp at this hlen ⊢; omega
        have hvalid2 : (getAt (updateAt root p markAsDirtySelf) p.dropLast).isSome =
            true := by
          rw [getAt_updateAt_dropLast root p hp markAsDirtySelf]
          have := getAt_dropLast_isSome root p hp hvalid
          cases hg : getAt root p.dropLast with
          | none => rw [hg] at this; simp at this
          | some mm => rfl
        exact ih (updateAt root p markAsDirtySelf) p.dropLast q o hlen2 ho hvalid2 hq'

/-- Claim C8 (amended): after a `markAsDirty` of any control that is not
scoped with `onlySelf`, the control and every ancestor composite up to the
root have `pristine = false` — descendant dirtiness reaches a composite
through the explicit upward walk of `markAsDirty`.  The claim's
unconditional biconditional "composite pristine iff no descendant dirty"
does not hold: an `onlySelf`-scoped marking (or one without an options
object) dirties the descendant but leaves every ancestor's `pristine`
untouched, and `_anyControls` consults only enabled children. -/
theorem c8_unscoped_dirty_propagation (root : Ctrl) (p q : Path) (o : UOpts)
    (ho : o.onlySelf ≠ some true) (hvalid : (getAt root p).isSome = true)
    (hq : pathLe q p = true) :
    ((getAt (markAsDirtyAt root p (some o)) q).map fun m => m.core.pristine) =
      some false :=
  c8_aux p.length root p q o le_rfl ho hvalid hq

/-- Witness for C8: an unscoped `markAsDirty` on child `a` of
`FormGroup({a: FormControl("", required)})` leaves the root group dirty. -/
theorem c8_unscoped_dirty_propagation_witness :
    ((⟨some false, none⟩ : UOpts).onlySelf ≠ some true) ∧
    (getAt c1WitnessTree [.key "a"]).isSome = true ∧
    pathLe [] [.key "a"] = true ∧
    ((getAt (markAsDirtyAt c1WitnessTree [.key "a"] (some ⟨some false, none⟩)) []).map
      fun m => m.core.pristine) = some false :=
  ⟨by decide, rfl, rfl,
    c8_unscoped_dirty_propagation c1WitnessTree [.key "a"] [] ⟨some false, none⟩
      (by decide) rfl rfl⟩

/-- Claim C8 counterexample: `markAsDirty({onlySelf: true})` on child `a`
leaves the composite `pristine` (first conjunct) although its descendant is
dirty (second conjunct), so "a composite's pristine flag is true iff no
descendant is dirty" is false at this reachable state. -/
theorem c8_counterexample :
    ((getAt (markAsDirtyAt c8Group [.key "a"] (some ⟨some true, none⟩)) []).map
      fun m => m.core.pristine) = some true ∧
    ((getAt (markAsDirtyAt c8Group [.key "a"] (some ⟨some true, none⟩)) [.key "a"]).map
      fun m => !m.core.pristine) = some true := by
  rw [markAsDirtyAt]
  constructor <;>
  · simp only [shouldRecurse]
    rfl

/-- Claim C4 (code-bug evaluation): the `updateOn` getter always returns the
control's own `_updateOn` — the parent-fallback branch is dead because
`_updateOn` is initialized to `"change"` and every `FormHooks` string is
truthy — so a strategy-less leaf inside a `blur` group reports `change`,
not the ancestors' `blur` the spec (and the getter's own fallback code)
intend. -/
theorem c4_updateOn_not_inherited :
    (∀ (root : Ctrl) (p : Path) (c : Ctrl), getAt root p = some c →
      updateOnOf root p = c.core.uo) ∧
    updateOnOf c4Tree [] = .blur ∧
    updateOnOf c4Tree [.key "f"] = .change := by
  refine ⟨?_, ?_, ?_⟩
  · intro root p c h
    rw [updateOnOf, h]
    simp [hookTruthy]
  · rw [updateOnOf]
    rfl
  · rw [updateOnOf]
    rfl

/-- Witness for C4: the leaf under `"f"` exists and its resolved strategy
equals its own (`change`) rather than its parent's (`blur`). -/
theorem c4_updateOn_not_inherited_witness :
    getAt c4Tree [.key "f"] =
      some (setParentAndCb (newFormControl (.str "x") none false none)) ∧
    updateOnOf c4Tree [.key "f"] =
      (setParentAndCb (newFormControl (.str "x") none false none)).core.uo :=
  ⟨rfl, c4_updateOn_not_inherited.1 c4Tree [.key "f"] _ rfl⟩

/-- Claim C2 (code-bug evaluation): `_runAsyncValidator` subscribes with an
observer that has only an `error` callback, so a successfully completing
async task — whether it resolves `null` or an error map — is discarded:
the control's errors and status are untouched and it remains `PENDING`
forever, instead of the result being applied via `setErrors` as the spec
states.  Only a failing task reaches `setErrors` (last two conjuncts). -/
theorem c2_async_success_dropped :
    (∀ (c : Ctrl) (res : Option ErrMap), applyAsyncOutcome c (.success res) = c) ∧
    c2Ctrl.core.status = .PENDING ∧
    applyAsyncOutcome c2Ctrl (.success none) = c2Ctrl ∧
    (applyAsyncOutcome c2Ctrl (.success none)).core.status = .PENDING ∧
    (applyAsyncOutcome c2Ctrl (.failure [("async", .b true)])).core.errors =
      some [("async", .b true)] ∧
    (applyAsyncOutcome c2Ctrl (.failure [("async", .b true)])).core.status = .INVALID :=
  ⟨fun _ _ => rfl, rfl, rfl, rfl, rfl, rfl⟩

theorem uvvCoreStep_leaf_fields (co : Core) :
    (uvvCoreStep (.leaf co)).value = co.value ∧
    (uvvCoreStep (.leaf co)).pristine = co.pristine ∧
    (uvvCoreStep (.leaf co)).touched = co.touched := by
  refine ⟨?_, ?_, ?_⟩ <;>
  · simp only [uvvCoreStep, Ctrl.core, Ctrl.setCore, reducedValue]
    split_ifs <;> rfl

/-- Claim C7 (amended): `reset()` with no arguments re-applies the *default*
state `null` — afterwards the control's value is `null` (not the
constructed initial value, unless that was itself `null`; see the
counterexample), and it is pristine and untouched. -/
theorem c7_reset_defaults (co : Core) :
    (formControlReset (.leaf co) .null).core.value = .null ∧
    (formControlReset (.leaf co) .null).core.pristine = true ∧
    (formControlReset (.leaf co) .null).core.touched = false := by
  have h := uvvCoreStep_leaf_fields
    { co with
      value := Value.null
      pendingValue := Value.null
      pristine := true
      pendingDirty := false
      touched := false
      pendingTouched := false }
  exact ⟨h.1, h.2.1, h.2.2⟩

/-- Witness for C7 (instantiating the universally quantified core): the
constructed `FormControl(1)` after `reset()`. -/
theorem c7_reset_defaults_witness :
    (formControlReset (.leaf c7Ctrl.core) .null).core.value = .null ∧
    (formControlReset (.leaf c7Ctrl.core) .null).core.pristine = true :=
  ⟨(c7_reset_defaults c7Ctrl.core).1, (c7_reset_defaults c7Ctrl.core).2.1⟩

/-- Claim C7 counterexample: `FormControl(1).reset()` yields value `null`,
not the constructed initial value `1` — the round-trip equality asserted by
the claim fails for any non-null initial value. -/
theorem c7_counterexample :
    (formControlReset c7Ctrl .null).core.value = .null ∧
    c7Ctrl.core.value = .int 1 ∧
    (formControlReset c7Ctrl .null).core.value ≠ c7Ctrl.core.value := by
  refine ⟨rfl, rfl, ?_⟩
  intro h
  exact Value.noConfusion h

theorem disableSubtree_status (c : Ctrl) :
    (disableSubtree c).core.status = .DISABLED := by
  cases c <;> simp [disableSubtree, updValueC, Ctrl.core, Ctrl.setCore]

theorem disableSubtree_errors (c : Ctrl) :
    (disableSubtree c).core.errors = none := by
  cases c <;> simp [disableSubtree, updValueC, Ctrl.core, Ctrl.setCore]

theorem disableSubtree_kids (c : Ctrl) :
    ((kidsOf (disableSubtree c)).all fun ch => ch.core.status == .DISABLED) = true := by
  cases c with
  | leaf co => simp [disableSubtree, updValueC, Ctrl.setCore, kidsOf]
  | group co cs =>
    simp only [disableSubtree, updValueC, Ctrl.setCore, Ctrl.core, kidsOf,
      List.map_map, List.all_eq_true]
    intro ch hch
    simp only [List.mem_map, Function.comp] at hch
    obtain ⟨x, _, rfl⟩ := hch
    simpa using disableSubtree_status _
  | arr co cs =>
    simp only [disableSubtree, updValueC, Ctrl.setCore, Ctrl.core, kidsOf,
      List.all_eq_true]
    intro ch hch
    simp only [List.mem_map] at hch
    obtain ⟨x, _, rfl⟩ := hch
    simpa using disableSubtree_status _

/-- Claim C10: `disable()`/`enable()` called without an options object
fault at the unguarded `opts` dereference — but only after mutating: the
fault flag is set while the state already has own status `DISABLED`, own
errors cleared and every child disabled (for `disable`), resp. own status
`VALID` (for `enable`).  With an options object supplied, neither call
faults. -/
theorem c10_disable_enable_need_opts :
    (∀ c : Ctrl,
      (disableRun c none).2 = true ∧
      (disableRun c none).1.core.status = .DISABLED ∧
      (disableRun c none).1.core.errors = none ∧
      ((kidsOf (disableRun c none).1).all fun ch => ch.core.status == .DISABLED) = true ∧
      (enableRun c none).2 = true ∧
      (enableRun c none).1.core.status = .VALID) ∧
    (∀ (c : Ctrl) (o : UOpts),
      (disableRun c (some o)).2 = false ∧ (enableRun c (some o)).2 = false) := by
  constructor
  · intro c
    refine ⟨rfl, disableSubtree_status c, disableSubtree_errors c,
      disableSubtree_kids c, ?_, ?_⟩
    · cases c <;> rfl
    · cases c <;> simp [enableRun, Ctrl.setCore, Ctrl.core]
  · intro c o
    constructor
    · rfl
    · cases c <;> rfl

/-- Claim C6 (amended): strict `setValue` on a keyed composite fails with
the distinct fatal errors: (1) a map omitting a key for an existing child
fails in the `_checkAllValuesPresent` pre-pass — before any child is
mutated, the state is returned unchanged; (2) on a composite with zero
children, any *non-empty* map fails with the no-controls error (the check
lives in the per-key path, so `setValue({})` on a childless composite
succeeds vacuously — see the counterexample); (3) a supplied key naming no
child fails with the cannot-find error; and specifically `setValue({a: 1})`
on children `{a, b}` fails (missing `b`) with the whole group, child `a`
included, unmutated. -/
theorem c6_strict_setValue :
    (∀ (co : Core) (cs : List (String × Ctrl)) (fields : List (String × Value))
      (kc0 : String × Ctrl),
      cs.find? (fun kc => (lookupVal fields kc.1).isNone) = some kc0 →
      ctrlSetValue (.group co cs) (.obj fields) =
        (.group co cs, some (msgMustSupply kc0.1))) ∧
    (∀ (co : Core) (k : String) (fv : Value) (rest : List (String × Value)),
      ctrlSetValue (.group co []) (.obj ((k, fv) :: rest)) =
        (.group co [], some msgNoControlsGroup)) ∧
    (ctrlSetValue c6Group (.obj [("a", .int 1), ("b", .int 2), ("c", .int 3)])).2 =
      some (msgCannotFind "c") ∧
    ctrlSetValue c6Group (.obj [("a", .int 1)]) = (c6Group, some (msgMustSupply "b")) := by
  refine ⟨?_, ?_, ?_, ?_⟩
  · intro co cs fields kc0 hf
    rw [ctrlSetValue]
    all_goals try (intro h; exact Value.noConfusion h)
    simp [fieldsOf, hf]
  · intro co k fv rest
    rw [ctrlSetValue]
    all_goals try (intro h; exact Value.noConfusion h)
    simp only [fieldsOf]
    rw [setFieldsG]
    simp
  · simp only [c6Group, c6A, c6B]
    rw [ctrlSetValue]
    all_goals try (intro h; exact Value.noConfusion h)
    simp only [fieldsOf, lookupVal, List.find?, List.attach, List.attachWith,
      List.pmap, updChildG, ctrlSetValue, setFieldsG]
    simp [ctrlSetValue]
  · simp only [c6Group, c6A, c6B]
    rw [ctrlSetValue]
    all_goals try (intro h; exact Value.noConfusion h)
    simp [fieldsOf, lookupVal]

/-- Witness for C6's hypothesis-bearing conjunct: on children `{a, b}` and
map `{a: 1}`, the pre-pass finds `b` without a value and `setValue` fails
leaving the group unchanged. -/
theorem c6_strict_setValue_witness :
    [("a", c6A), ("b", c6B)].find?
      (fun kc => (lookupVal [("a", Value.int 1)] kc.1).isNone) = some ("b", c6B) ∧
    ctrlSetValue (.group initCore [("a", c6A), ("b", c6B)]) (.obj [("a", .int 1)]) =
      (.group initCore [("a", c6A), ("b", c6B)], some (msgMustSupply "b")) :=
  ⟨rfl, c6_strict_setValue.1 initCore [("a", c6A), ("b", c6B)] [("a", .int 1)]
    ("b", c6B) rfl⟩

/-- Claim C6 counterexample: strict `setValue({})` on a composite with zero
children raises no error at all — the zero-children check is only reached
per supplied key, so the call completes normally, contradicting "fails with
a distinct fatal error … when the composite has zero children". -/
theorem c6_counterexample :
    (ctrlSetValue c6Empty (.obj [])).2 = none := by
  simp only [c6Empty]
  rw [ctrlSetValue]
  all_goals try (intro h; exact Value.noConfusion h)
  simp only [fieldsOf]
  rw [setFieldsG]
  simp

/-- Claim C9: `registerControl` with an already-used name returns the
existing child and leaves the group untouched — the new control is not
stored, re-parented or given the collection-change callback — and
`addControl` with that name therefore only revalidates: its children are
exactly the old ones, so it never replaces the existing child. -/
theorem c9_register_existing (co : Core) (cs : List (String × Ctrl)) (name : String)
    (c existing : Ctrl) (h : lookupCtrl cs name = some existing) :
    registerControlG (.group co cs) name c = (existing, .group co cs) ∧
    addControlG (.group co cs) name c = uvvSelf (.group co cs) ∧
    kidsOf (addControlG (.group co cs) name c) = kidsOf (Ctrl.group co cs) := by
  have h1 : registerControlG (.group co cs) name c = (existing, .group co cs) := by
    simp [registerControlG, h]
  refine ⟨h1, ?_, ?_⟩
  · simp [addControlG, h1]
  · simp [addControlG, h1, uvvSelf, kidsOf_setCore]

/-- Witness for C9: adding a fresh control under the taken name `a`
returns the existing child and leaves the collection unchanged. -/
theorem c9_register_existing_witness :
    lookupCtrl [("a", c9Existing)] "a" = some c9Existing ∧
    registerControlG c9Group "a" c9New = (c9Existing, c9Group) :=
  ⟨rfl,
    (c9_register_existing initCore [("a", c9Existing)] "a" c9New c9Existing rfl).1⟩

end ReactiveForms
